import Mathlib

/-!
Shallow embedding of the gold-graph builder in
`BIRD/scripts/build_gold_graphs.py` (functions `build_schema_maps` and
`build_gold_for_record`).  SQL parsing (`parse_sql`, a wrapper around the
external sqlglot library) is out of scope per the specification; its output
is taken as an input of type `Option ParseResult`, with `none` standing for
"no dialect parsed".  Python sets are modelled by lists with first-seen
deduplication; the enumeration order of the shared-column set produced for a
NATURAL join (`list(left_cols.intersection(right_cols))` in the source,
whose order follows Python hash-based set iteration) is supplied as an
explicit parameter `enum`.  Strings are treated in their ASCII fragment
(`str.lower`, the `\w` class of `re`), which covers every input exercised
here.
-/

/-- A record of the schema's `foreign_key_descriptions` list
(`build_schema_maps`, lines 49-56): only the six fields read by the source
are modelled; a field missing in the JSON is the empty string. -/
structure FkDesc where
  child_table : String
  child_column : String
  parent_table : String
  parent_column : String
  summary : String
  usage : String
deriving DecidableEq

/-- A schema entry as read by `build_schema_maps` (lines 30-34): table
names, `(table_index, column_name)` pairs (index `-1` is the wildcard),
positionally aligned column descriptions, and FK description records. -/
structure Schema where
  table_names : List String
  column_names : List (Int × String)
  column_descriptions : List String
  foreign_key_descriptions : List FkDesc
deriving DecidableEq

/-- The tuple returned by the external `parse_sql` (line 148):
alias map, equality join pairs `(ltab, lname, rtab, rname)` (an absent
qualifier is the empty string, as in sqlglot), USING/NATURAL join specs
`(left_table, right_table, right_alias, cols)` with `cols = []` signalling
NATURAL, explicit FROM/JOIN table tokens, and all column references. -/
structure ParseResult where
  alias_to_table : List (String × String)
  join_pairs : List (String × String × String × String)
  using_edges : List (String × String × String × List String)
  tables_in_from : List String
  columns : List (String × String)
deriving DecidableEq

/-- The default used on parse failure:
`parse_sql(...) or ({}, [], [], [], [])` (line 154). -/
def emptyParse : ParseResult := ⟨[], [], [], [], []⟩

/-- An output edge dict (lines 174-180). -/
structure Edge where
  child_table : String
  child_column : String
  parent_table : String
  parent_column : String
  description : String
deriving DecidableEq

/-- An output node dict (line 226): table name plus `(name, description)`
column pairs. -/
structure Node where
  table_name : String
  columns : List (String × String)
deriving DecidableEq

/-- The `gold_graph` value (line 255). -/
structure GoldGraph where
  nodes : List Node
  edges : List Edge
deriving DecidableEq

/-- A question record (`rec`), restricted to the keys the source reads. -/
structure QuestionRecord where
  db_id : String
  question_en : String
  question : String
  question_ar : String
  SQL : String
deriving DecidableEq

/-- The dict returned by `build_gold_for_record` (lines 250-257). -/
structure BuildResult where
  db_id : String
  question_en : String
  question_ar : String
  SQL : String
  gold_graph : GoldGraph
  context_text : String
deriving DecidableEq

/-- Python dict lookup `d.get(k)` over an assignment history: the last
binding of a key wins. -/
def dictGet {κ ν : Type} [DecidableEq κ] (l : List (κ × ν)) (k : κ) : Option ν :=
  (l.reverse.find? (fun p => decide (p.1 = k))).map Prod.snd

/-- Python list indexing `tns[i]` with negative-index wraparound.  An
out-of-range index would raise `IndexError` in the source (a contract
violation per the spec); it is modelled as `""` and never reached for
well-formed schemas. -/
def tblName (tns : List String) (i : Int) : String :=
  if i < 0 then tns.getD ((tns.length : Int) + i).toNat "" else tns.getD i.toNat ""

/-- `table_to_cols[tname].append((c_name, desc))` on a `defaultdict(list)`:
append to the existing key, else add a new key at the end. -/
def addCol (acc : List (String × List (String × String))) (t c d : String) :
    List (String × List (String × String)) :=
  match acc with
  | [] => [(t, [(c, d)])]
  | (t₀, cs) :: rest =>
      if t₀ = t then (t₀, cs ++ [(c, d)]) :: rest else (t₀, cs) :: addCol rest t c d

/-- The loop of `build_schema_maps` lines 39-46 restricted to building
`table_to_cols`; `i` tracks the shared column index space. -/
def ttcGo (tns : List String) (descs : List String) :
    Nat → List (Int × String) → List (String × List (String × String)) →
    List (String × List (String × String))
  | _, [], acc => acc
  | i, (tIdx, cName) :: rest, acc =>
      if tIdx = -1 then ttcGo tns descs (i + 1) rest acc
      else ttcGo tns descs (i + 1) rest (addCol acc (tblName tns tIdx) cName (descs.getD i ""))

/-- `table_to_cols` of `build_schema_maps`. -/
def tableToCols (s : Schema) : List (String × List (String × String)) :=
  ttcGo s.table_names s.column_descriptions 0 s.column_names []

/-- `idx_to_ref` of `build_schema_maps` (lines 39-44): column index to
`(table, column)`, with the `("*", "*")` sentinel for wildcard columns.
Returned by the source but unused by `build_gold_for_record`. -/
def idxToRef (s : Schema) : List (Nat × (String × String)) :=
  s.column_names.enum.map
    (fun p => (p.1, if p.2.1 = -1 then ("*", "*") else (tblName s.table_names p.2.1, p.2.2)))

/-- A 4-tuple edge key `(child_table, child_column, parent_table,
parent_column)`. -/
abbrev EdgeKey := String × String × String × String

/-- `d.get("summary") or d.get("usage") or ""` (line 56). -/
def fkValue (d : FkDesc) : String := if d.summary = "" then d.usage else d.summary

/-- `fk_desc_map` of `build_schema_maps` (lines 48-56). -/
def fkDescMap (s : Schema) : List (EdgeKey × String) :=
  s.foreign_key_descriptions.map
    (fun d => ((d.child_table, d.child_column, d.parent_table, d.parent_column), fkValue d))

/-- Swap child and parent roles of an edge key. -/
def revKey : EdgeKey → EdgeKey
  | (a, b, c, d) => (c, d, a, b)

/-- `fk_desc_map_rev` of `build_schema_maps` (lines 59-61). -/
def fkDescMapRev (s : Schema) : List (EdgeKey × String) :=
  (fkDescMap s).map (fun p => (revKey p.1, p.2))

/-- `fk_desc_map.get(k) or fk_desc_map_rev.get(k) or ""`
(lines 173 and 191): a missing or empty forward entry falls through to the
reverse map, then to `""`. -/
def descFor (fkm fkr : List (EdgeKey × String)) (k : EdgeKey) : String :=
  let f := (dictGet fkm k).getD ""
  if f = "" then (dictGet fkr k).getD "" else f

/-- `alias_to_table.get(tok or "", tok or "")` (lines 167-168, 203): an
absent qualifier is already the empty string, and an unknown token falls
back to itself. -/
def aliasGet (pr : ParseResult) (tok : String) : String :=
  (dictGet pr.alias_to_table tok).getD tok

/-- Edge key of an output edge. -/
def edgeKey (e : Edge) : EdgeKey :=
  (e.child_table, e.child_column, e.parent_table, e.parent_column)

/-- Edges emitted by the EQ-join loop (lines 166-180). -/
def eqJoinEdges (pr : ParseResult) (fkm fkr : List (EdgeKey × String)) : List Edge :=
  pr.join_pairs.flatMap (fun q =>
    let lt := aliasGet pr q.1
    let rt := aliasGet pr q.2.2.1
    if lt = "" ∨ rt = "" then []
    else [⟨lt, q.2.1, rt, q.2.2.2, descFor fkm fkr (lt, q.2.1, rt, q.2.2.2)⟩])

/-- Tables added to `tables_needed` by the EQ-join loop (line 171). -/
def eqJoinTables (pr : ParseResult) : List String :=
  pr.join_pairs.flatMap (fun q =>
    let lt := aliasGet pr q.1
    let rt := aliasGet pr q.2.2.1
    if lt = "" ∨ rt = "" then [] else [lt, rt])

/-- The column names of one table: `{c for c, _ in table_to_cols.get(t, [])}`
as a list still carrying duplicates. -/
def colNames (ttc : List (String × List (String × String))) (t : String) : List String :=
  ((dictGet ttc t).getD []).map Prod.fst

/-- First-seen deduplication by a key, the standard `seen`-set loop;
instantiated both for the edge dedup loop (lines 229-236) and for Python
set membership semantics of `tables_needed`. -/
def dedupByGo {α κ : Type} [DecidableEq κ] (key : α → κ) (seen : List κ) :
    List α → List α
  | [] => []
  | x :: xs =>
      if key x ∈ seen then dedupByGo key seen xs
      else x :: dedupByGo key (key x :: seen) xs

/-- First-seen deduplication from an empty `seen` set. -/
def dedupBy {α κ : Type} [DecidableEq κ] (key : α → κ) (l : List α) : List α :=
  dedupByGo key [] l

/-- The canonical listing (first-occurrence order) of
`left_cols.intersection(right_cols)` (lines 187-189); the order in which
Python enumerates this set is applied on top via `enum`. -/
def sharedCols (ttc : List (String × List (String × String))) (l r : String) : List String :=
  (dedupBy id (colNames ttc l)).filter (fun c => c ∈ colNames ttc r)

/-- Edges emitted by the USING/NATURAL loop (lines 183-198); `cols = []`
(NATURAL, or a USING list with no resolvable names) falls back to the
shared-column set enumerated by `enum`. -/
def usingJoinEdges (enum : List String → List String)
    (ttc : List (String × List (String × String)))
    (fkm fkr : List (EdgeKey × String)) (pr : ParseResult) : List Edge :=
  pr.using_edges.flatMap (fun u =>
    let lt := u.1
    let rt := u.2.1
    if lt = "" ∨ rt = "" then []
    else
      (if u.2.2.2.isEmpty then enum (sharedCols ttc lt rt) else u.2.2.2).map
        (fun c => ⟨lt, c, rt, c, descFor fkm fkr (lt, c, rt, c)⟩))

/-- Tables added to `tables_needed` by the USING/NATURAL loop (line 186). -/
def usingJoinTables (pr : ParseResult) : List String :=
  pr.using_edges.flatMap (fun u =>
    if u.1 = "" ∨ u.2.1 = "" then [] else [u.1, u.2.1])

/-- Membership test `name in table_to_cols`. -/
def isSchemaTable (ttc : List (String × List (String × String))) (t : String) : Bool :=
  ttc.any (fun p => decide (p.1 = t))

/-- Tables added by the explicit FROM/JOIN loop (lines 160-162). -/
def fromTables (ttc : List (String × List (String × String)))
    (pr : ParseResult) : List String :=
  pr.tables_in_from.filter (fun n => isSchemaTable ttc n)

/-- `owners` for an unqualified column (line 207): the schema tables owning
a column with exactly that name. -/
def ownersOf (ttc : List (String × List (String × String))) (col : String) : List String :=
  (ttc.filter (fun p => p.2.any (fun cd => decide (cd.1 = col)))).map Prod.fst

/-- Tables added by the column-reference loop (lines 201-209). -/
def colTables (ttc : List (String × List (String × String)))
    (pr : ParseResult) : List String :=
  pr.columns.flatMap (fun tc =>
    if tc.1 ≠ "" then
      (let real := aliasGet pr tc.1
       if isSchemaTable ttc real then [real] else [])
    else
      (let ow := ownersOf ttc tc.2
       if ow.length = 1 then ow else []))

/-- `str.lower` on the character sequence (ASCII fragment). -/
def lowerChars (l : List Char) : List Char := l.map Char.toLower

/-- `str.strip`: drop leading and trailing whitespace. -/
def trimChars (l : List Char) : List Char :=
  ((l.dropWhile Char.isWhitespace).reverse.dropWhile Char.isWhitespace).reverse

/-- Code-point lexicographic comparison of character sequences, the order
Python `sorted` uses on strings. -/
def charListLe : List Char → List Char → Bool
  | [], _ => true
  | _ :: _, [] => false
  | a :: as, b :: bs =>
      if a.toNat < b.toNat then true
      else if b.toNat < a.toNat then false
      else charListLe as bs

/-- Python string comparison `a <= b`. -/
def strLeB (a b : String) : Bool := charListLe a.data b.data

/-- ASCII fragment of the regex class `\w`. -/
def isWordChar (c : Char) : Bool := c.isAlphanum || c == '_'

/-- Word-ness of the character at position `i` (positions outside the
string count as non-word, like the string edges for `\b`). -/
def wordAt (s : List Char) (i : Nat) : Bool :=
  match s.get? i with
  | some c => isWordChar c
  | none => false

/-- The `\b` assertion at position `i`: word-ness changes there. -/
def boundaryAt (s : List Char) (i : Nat) : Bool :=
  (if i = 0 then false else wordAt s (i - 1)) != wordAt s i

/-- A match of the literal pattern `\b pat \b` starting at position `i`. -/
def wholeWordAt (pat s : List Char) (i : Nat) : Bool :=
  decide ((s.drop i).take pat.length = pat) && boundaryAt s i && boundaryAt s (i + pat.length)

/-- `re.search(r"\b" + re.escape(pat) + r"\b", s)` for a literal (escaped)
pattern: some starting position matches.  The `except re.error` branch of
the source is unreachable for an escaped pattern and is not modelled. -/
def hasWholeWord (pat s : List Char) : Bool :=
  (List.range (s.length + 1)).any (fun i => wholeWordAt pat s i)

/-- The fallback scan (lines 211-220): every schema table whose lowercased
name occurs as a whole word in the lowercased SQL text. -/
def fallbackTables (ttc : List (String × List (String × String))) (sql : String) : List String :=
  (ttc.map Prod.fst).filter (fun t => hasWholeWord (lowerChars t.data) (lowerChars sql.data))

/-- All contributions to the `tables_needed` set from resolution steps 1-4
(FROM/JOIN inclusion, EQ joins, USING/NATURAL joins, column references);
only membership in this list matters, mirroring set semantics. -/
def candidateTables (ttc : List (String × List (String × String)))
    (pr : ParseResult) : List String :=
  fromTables ttc pr ++ eqJoinTables pr ++ usingJoinTables pr ++ colTables ttc pr

/-- `tables_needed` after the fallback test `if not tables_needed:`
(lines 211-220). -/
def neededTables (ttc : List (String × List (String × String)))
    (sql : String) (pr : ParseResult) : List String :=
  if (candidateTables ttc pr).isEmpty then fallbackTables ttc sql else candidateTables ttc pr

/-- The full edge sequence before deduplication: EQ-join edges first, then
USING/NATURAL edges, in source order. -/
def rawEdges (enum : List String → List String)
    (ttc : List (String × List (String × String)))
    (fkm fkr : List (EdgeKey × String)) (pr : ParseResult) : List Edge :=
  eqJoinEdges pr fkm fkr ++ usingJoinEdges enum ttc fkm fkr pr

/-- `sorted(tables_needed)`: the sorted listing of the distinct tables,
under code-point lexicographic string order as in Python. -/
def sortDedup (l : List String) : List String :=
  List.insertionSort (fun a b => strLeB a b = true) (dedupBy id l)

/-- One node dict (lines 224-226): the table with its full column list,
`table_to_cols.get(t, [])`. -/
def mkNode (ttc : List (String × List (String × String))) (t : String) : Node :=
  ⟨t, (dictGet ttc t).getD []⟩

/-- The node list (lines 222-226). -/
def buildNodes (ttc : List (String × List (String × String)))
    (sql : String) (pr : ParseResult) : List Node :=
  (sortDedup (neededTables ttc sql pr)).map (mkNode ttc)

/-- The deduplicated edge list (lines 228-236). -/
def buildEdges (enum : List String → List String)
    (ttc : List (String × List (String × String)))
    (fkm fkr : List (EdgeKey × String)) (pr : ParseResult) : List Edge :=
  dedupBy edgeKey (rawEdges enum ttc fkm fkr pr)

/-- One node line of the context text (lines 240-242): a column renders as
`name: description`, or as its bare name when the description is empty. -/
def nodeLine (n : Node) : String :=
  "Table " ++ n.table_name ++ ": " ++
    String.intercalate ", "
      (n.columns.map (fun cd => if cd.2 = "" then cd.1 else cd.1 ++ ": " ++ cd.2))

/-- The literal separator written by line 247 of the source between the two
column references of a relationship line.  Its three characters are
U+00E2, U+2020, U+2019 — the bytes of a UTF-8 arrow re-decoded as cp1252
(mojibake present verbatim in the source file). -/
def arrowSep : String := "\u00e2\u2020\u2019"

/-- One relationship line (lines 246-247); the ` (description)` suffix is
omitted for an empty description. -/
def edgeLine (e : Edge) : String :=
  e.child_table ++ "." ++ e.child_column ++ " " ++ arrowSep ++ " " ++
    e.parent_table ++ "." ++ e.parent_column ++
    (if e.description = "" then "" else " (" ++ e.description ++ ")")

/-- `context_text` assembly (lines 239-248). -/
def contextText (nodes : List Node) (deduped : List Edge) : String :=
  String.intercalate "\n"
    (nodes.map nodeLine ++
      (if deduped.isEmpty then [] else "Relationships:" :: deduped.map edgeLine))

/-- `build_gold_for_record` (lines 151-257), with the external parse step
supplied as `parsed` and the set-enumeration order for NATURAL shared
columns supplied as `enum`. -/
def build_gold_for_record (enum : List String → List String)
    (rec : QuestionRecord) (schema : Schema) (parsed : Option ParseResult) : BuildResult :=
  let ttc := tableToCols schema
  let fkm := fkDescMap schema
  let fkr := fkDescMapRev schema
  let pr := parsed.getD emptyParse
  let nodes := buildNodes ttc rec.SQL pr
  let deduped := buildEdges enum ttc fkm fkr pr
  { db_id := rec.db_id
    question_en := if rec.question_en = "" then rec.question else rec.question_en
    question_ar := rec.question_ar
    SQL := rec.SQL
    gold_graph := ⟨nodes, deduped⟩
    context_text := contextText nodes deduped }

/-- `norm` from `BIRD/scripts/augment_fk_descriptions.py` (lines 17-21):
strip, lowercase, drop every character that is not a lowercase ASCII
letter or digit.  This function is used only by the FK-description
augmentation step, not by the graph builder. -/
def normName (s : String) : String :=
  String.mk ((lowerChars (trimChars s.data)).filter (fun c => c.isLower || c.isDigit))

/-! Concrete inputs used by counterexamples and witnesses. -/

/-- A schema with one table `StudentId` owning one column `a`. -/
def schStudentId : Schema := ⟨["StudentId"], [(0, "a")], [""], []⟩

/-- A record whose SQL names the table with a separator: `student_id`. -/
def recStudentId : QuestionRecord := ⟨"", "", "", "", "SELECT * FROM student_id"⟩

/-- Parse output for `SELECT * FROM student_id`. -/
def prStudentId : ParseResult := ⟨[("student_id", "student_id")], [], [], ["student_id"], []⟩

/-- A record with empty SQL text. -/
def recEmpty : QuestionRecord := ⟨"", "", "", "", ""⟩

/-- Tables `A` (column `ID`) and `B` (column `id`): ambiguous under
normalization, unambiguous under exact matching. -/
def schAmbig : Schema := ⟨["A", "B"], [(0, "ID"), (1, "id")], ["", ""], []⟩

/-- Parse output with a single unqualified column reference `id`. -/
def prAmbig : ParseResult := ⟨[], [], [], [], [("", "id")]⟩

/-- A schema recording FK descriptions in both directions with different
texts: `(A.x, B.y) : d1` and `(B.y, A.x) : d2`. -/
def schFkBoth : Schema :=
  ⟨[], [], [], [⟨"A", "x", "B", "y", "d1", ""⟩, ⟨"B", "y", "A", "x", "d2", ""⟩]⟩

/-- A schema recording a single FK description `(A.x, B.y) : d1`. -/
def schFkOne : Schema := ⟨[], [], [], [⟨"A", "x", "B", "y", "d1", ""⟩]⟩

/-- Parse output with the join predicate written as `B.y = A.x`. -/
def prRevJoin : ParseResult := ⟨[], [("B", "y", "A", "x")], [], [], []⟩

/-- A schema with one table `T`, not mentioning `X` or `Y`. -/
def schT : Schema := ⟨["T"], [(0, "c")], [""], []⟩

/-- Parse output with one equality join predicate `X.a = Y.b` whose
qualifiers resolve through an empty alias table. -/
def prXY : ParseResult := ⟨[], [("X", "a", "Y", "b")], [], [], []⟩

/-- Parse output with a duplicated join predicate followed by a distinct
one. -/
def prDup : ParseResult :=
  ⟨[], [("X", "a", "Y", "b"), ("X", "a", "Y", "b"), ("C", "u", "D", "v")], [], [], []⟩

/-- Tables `A` and `B` sharing columns `id` and `code`. -/
def schNat : Schema :=
  ⟨["A", "B"], [(0, "id"), (0, "code"), (1, "id"), (1, "code")], ["", "", "", ""], []⟩

/-- Parse output with one NATURAL join of `A` and `B`. -/
def prNat : ParseResult := ⟨[], [], [("A", "B", "B", [])], [], []⟩

/-- Tables `Student` and `Course`; only `Student` owns `name`. -/
def schStudent : Schema :=
  ⟨["Student", "Course"], [(0, "id"), (0, "name"), (1, "cid")], ["primary key", "", ""], []⟩

/-- Parse output with a single unqualified column reference `name`. -/
def prNameCol : ParseResult := ⟨[], [], [], [], [("", "name")]⟩

/-- Parse output with the single FROM table token `Student`. -/
def prFromStudent : ParseResult := ⟨[], [], [], ["Student"], []⟩

/-- Parse output with FROM/JOIN table tokens `Student` and `Course`. -/
def prFromBoth : ParseResult := ⟨[], [], [], ["Student", "Course"], []⟩

/-! ### Helper lemmas -/

/-- `charListLe` is total. -/
theorem charListLe_total : ∀ a b : List Char, charListLe a b = true ∨ charListLe b a = true := by
  intro a
  induction a with
  | nil => intro b; left; rfl
  | cons x xs ih =>
    intro b
    cases b with
    | nil => right; rfl
    | cons y ys =>
      simp only [charListLe]
      rcases Nat.lt_trichotomy x.toNat y.toNat with h | h | h
      · left; simp [h]
      · have h1 : ¬ x.toNat < y.toNat := by omega
        have h2 : ¬ y.toNat < x.toNat := by omega
        simp only [h1, h2, if_false]
        exact ih ys
      · right; simp [h]

/-- `charListLe` is transitive. -/
theorem charListLe_trans :
    ∀ a b c : List Char, charListLe a b = true → charListLe b c = true → charListLe a c = true := by
  intro a
  induction a with
  | nil => intro b c _ _; rfl
  | cons x xs ih =>
    intro b c hab hbc
    cases b with
    | nil => simp [charListLe] at hab
    | cons y ys =>
      cases c with
      | nil => simp [charListLe] at hbc
      | cons z zs =>
        simp only [charListLe] at hab hbc ⊢
        rcases Nat.lt_trichotomy x.toNat y.toNat with hxy | hxy | hxy
        · rcases Nat.lt_trichotomy y.toNat z.toNat with hyz | hyz | hyz
          · simp [show x.toNat < z.toNat by omega]
          · simp [show x.toNat < z.toNat by omega]
          · rw [if_neg (by omega), if_pos (by omega)] at hbc
            cases hbc
        · rcases Nat.lt_trichotomy y.toNat z.toNat with hyz | hyz | hyz
          · simp [show x.toNat < z.toNat by omega]
          · rw [if_neg (by omega), if_neg (by omega)] at hab
            rw [if_neg (by omega), if_neg (by omega)] at hbc
            rw [if_neg (by omega), if_neg (by omega)]
            exact ih ys zs hab hbc
          · rw [if_neg (by omega), if_pos (by omega)] at hbc
            cases hbc
        · rw [if_neg (by omega), if_pos (by omega)] at hab
          cases hab

/-- The deduplication loop yields a sublist of its input. -/
theorem dedupByGo_sublist {α κ : Type} [DecidableEq κ] (key : α → κ)
    (seen : List κ) (l : List α) : (dedupByGo key seen l).Sublist l := by
  induction l generalizing seen with
  | nil => simp [dedupByGo]
  | cons x xs ih =>
    simp only [dedupByGo]
    split
    · exact List.Sublist.cons x (ih seen)
    · exact List.Sublist.cons₂ x (ih _)

/-- Keys of deduplicated elements never lie in the starting `seen` set. -/
theorem key_not_seen_of_mem_dedupByGo {α κ : Type} [DecidableEq κ] {key : α → κ}
    {seen : List κ} {l : List α} {e : α} (he : e ∈ dedupByGo key seen l) : key e ∉ seen := by
  induction l generalizing seen with
  | nil => simp [dedupByGo] at he
  | cons x xs ih =>
    simp only [dedupByGo] at he
    split at he
    · exact ih he
    · rcases List.mem_cons.1 he with rfl | h
      · assumption
      · intro hc
        exact ih h (List.mem_cons_of_mem _ hc)

/-- The deduplication loop yields pairwise distinct keys. -/
theorem nodup_keys_dedupByGo {α κ : Type} [DecidableEq κ] (key : α → κ)
    (seen : List κ) (l : List α) : ((dedupByGo key seen l).map key).Nodup := by
  induction l generalizing seen with
  | nil => simp [dedupByGo]
  | cons x xs ih =>
    simp only [dedupByGo]
    split
    · exact ih seen
    · simp only [List.map_cons, List.nodup_cons]
      refine ⟨?_, ih _⟩
      intro hmem
      obtain ⟨e, he, hke⟩ := List.mem_map.1 hmem
      exact key_not_seen_of_mem_dedupByGo he (hke ▸ List.mem_cons_self _ _)

/-- Every retained element is the first occurrence of its key. -/
theorem find?_of_mem_dedupByGo {α κ : Type} [DecidableEq κ] {key : α → κ}
    {seen : List κ} {l : List α} {e : α} (he : e ∈ dedupByGo key seen l) :
    l.find? (fun x => decide (key x = key e)) = some e := by
  induction l generalizing seen with
  | nil => simp [dedupByGo] at he
  | cons x xs ih =>
    simp only [dedupByGo] at he
    split at he
    case isTrue h =>
      have hne : ¬ key x = key e := fun hc => key_not_seen_of_mem_dedupByGo he (hc ▸ h)
      rw [List.find?_cons_of_neg _ (by simpa using hne)]
      exact ih he
    case isFalse h =>
      rcases List.mem_cons.1 he with rfl | hmem
      · rw [List.find?_cons_of_pos _ (by simp)]
      · have hne : ¬ key x = key e := by
          intro hc
          exact key_not_seen_of_mem_dedupByGo hmem (hc ▸ List.mem_cons_self _ _)
        rw [List.find?_cons_of_neg _ (by simpa using hne)]
        exact ih hmem

/-- Every input key survives deduplication (or was already seen). -/
theorem key_mem_dedupByGo {α κ : Type} [DecidableEq κ] (key : α → κ)
    (seen : List κ) {l : List α} {a : α} (ha : a ∈ l) :
    key a ∈ seen ∨ key a ∈ (dedupByGo key seen l).map key := by
  induction l generalizing seen with
  | nil => cases ha
  | cons x xs ih =>
    simp only [dedupByGo]
    rcases List.mem_cons.1 ha with rfl | hmem
    · split
      case isTrue h => exact Or.inl h
      case isFalse h => right; simp
    · split
      case isTrue h => exact ih seen hmem
      case isFalse h =>
        rcases ih (key x :: seen) hmem with hs | hd
        · rcases List.mem_cons.1 hs with heq | hseen
          · right; simp [heq]
          · exact Or.inl hseen
        · right
          simp only [List.map_cons, List.mem_cons]
          exact Or.inr hd

/-- Key membership is preserved exactly by deduplication. -/
theorem mem_map_key_dedupBy {α κ : Type} [DecidableEq κ] (key : α → κ)
    (l : List α) (k : κ) : k ∈ (dedupBy key l).map key ↔ k ∈ l.map key := by
  constructor
  · intro h
    obtain ⟨e, he, hke⟩ := List.mem_map.1 h
    exact List.mem_map.2 ⟨e, (dedupByGo_sublist key [] l).subset he, hke⟩
  · intro h
    obtain ⟨e, he, hke⟩ := List.mem_map.1 h
    rcases key_mem_dedupByGo key [] he with hs | hd
    · cases hs
    · exact hke ▸ hd

/-- Element membership is preserved exactly by `dedupBy id`. -/
theorem mem_dedupBy_id (l : List String) (a : String) : a ∈ dedupBy id l ↔ a ∈ l := by
  have := mem_map_key_dedupBy (id : String → String) l a
  simpa using this

/-- `sortDedup` output is sorted under Python string order. -/
theorem sortDedup_sorted (l : List String) :
    List.Sorted (fun a b => strLeB a b = true) (sortDedup l) := by
  haveI : IsTotal String (fun a b => strLeB a b = true) :=
    ⟨fun a b => charListLe_total a.data b.data⟩
  haveI : IsTrans String (fun a b => strLeB a b = true) :=
    ⟨fun a b c => charListLe_trans a.data b.data c.data⟩
  exact List.sorted_insertionSort _ _

/-- `sortDedup` preserves membership. -/
theorem mem_sortDedup {a : String} {l : List String} : a ∈ sortDedup l ↔ a ∈ l := by
  unfold sortDedup
  rw [List.mem_insertionSort]
  exact mem_dedupBy_id l a

/-- The node names are exactly the sorted deduplicated needed tables. -/
theorem buildNodes_names (ttc : List (String × List (String × String)))
    (sql : String) (pr : ParseResult) :
    (buildNodes ttc sql pr).map Node.table_name = sortDedup (neededTables ttc sql pr) := by
  unfold buildNodes
  rw [List.map_map]
  have h : (Node.table_name ∘ mkNode ttc) = id := funext fun t => rfl
  rw [h, List.map_id]

/-- A candidate table always names a node. -/
theorem mem_nodeNames_of_mem_candidates {ttc : List (String × List (String × String))}
    {sql : String} {pr : ParseResult} {t : String} (h : t ∈ candidateTables ttc pr) :
    t ∈ (buildNodes ttc sql pr).map Node.table_name := by
  rw [buildNodes_names]
  unfold neededTables
  have hne : (candidateTables ttc pr).isEmpty = false := by
    cases hc : candidateTables ttc pr with
    | nil => rw [hc] at h; cases h
    | cons a l => simp [List.isEmpty]
  rw [hne]
  simpa using mem_sortDedup.2 h

/-- A schema table test failing means the table has no entry at all. -/
theorem dictGet_eq_none_of_not_schema {ttc : List (String × List (String × String))}
    {t : String} (h : isSchemaTable ttc t = false) : dictGet ttc t = none := by
  unfold dictGet
  cases hf : ttc.reverse.find? (fun p => decide (p.1 = t)) with
  | none => rfl
  | some p =>
    exfalso
    have hp1 := List.find?_some hf
    have hp2 := List.mem_of_find?_eq_some hf
    rw [List.mem_reverse] at hp2
    have hany : ttc.any (fun p => decide (p.1 = t)) = true := List.any_eq_true.2 ⟨p, hp2, hp1⟩
    unfold isSchemaTable at h
    rw [h] at hany
    cases hany

/-- `revKey` is an involution. -/
theorem revKey_revKey (k : EdgeKey) : revKey (revKey k) = k := by
  obtain ⟨a, b, c, d⟩ := k
  rfl

/-- The reverse FK map is the forward map looked up at the swapped key. -/
theorem dictGet_fkDescMapRev (s : Schema) (k : EdgeKey) :
    dictGet (fkDescMapRev s) k = dictGet (fkDescMap s) (revKey k) := by
  unfold fkDescMapRev dictGet
  rw [← List.map_reverse, List.find?_map]
  have hpred : ((fun p : EdgeKey × String => decide (p.1 = k)) ∘
      (fun p : EdgeKey × String => (revKey p.1, p.2))) =
      (fun p : EdgeKey × String => decide (p.1 = revKey k)) := by
    funext p
    simp only [Function.comp]
    by_cases h : p.1 = revKey k
    · simp [h, revKey_revKey]
    · have h2 : ¬ revKey p.1 = k := by
        intro hc
        exact h (by rw [← hc, revKey_revKey])
      simp [h, h2]
  rw [hpred, Option.map_map]
  rfl

/-- Every raw edge carries the FK-description lookup of its own key. -/
theorem rawEdges_desc {enum : List String → List String}
    {ttc : List (String × List (String × String))}
    {fkm fkr : List (EdgeKey × String)} {pr : ParseResult} {e : Edge}
    (he : e ∈ rawEdges enum ttc fkm fkr pr) :
    e.description = descFor fkm fkr (edgeKey e) := by
  unfold rawEdges at he
  rcases List.mem_append.1 he with h | h
  · unfold eqJoinEdges at h
    obtain ⟨q, _, hmem⟩ := List.mem_flatMap.1 h
    dsimp only at hmem
    split at hmem
    · cases hmem
    · rcases List.mem_singleton.1 hmem with rfl
      rfl
  · unfold usingJoinEdges at h
    obtain ⟨u, _, hmem⟩ := List.mem_flatMap.1 h
    dsimp only at hmem
    split at hmem
    · cases hmem
    · obtain ⟨c, _, rfl⟩ := List.mem_map.1 hmem
      rfl

/-- Both tables of a raw edge are table-inclusion candidates. -/
theorem rawEdges_tables {enum : List String → List String}
    {ttc : List (String × List (String × String))}
    {fkm fkr : List (EdgeKey × String)} {pr : ParseResult} {e : Edge}
    (he : e ∈ rawEdges enum ttc fkm fkr pr) :
    e.child_table ∈ candidateTables ttc pr ∧ e.parent_table ∈ candidateTables ttc pr := by
  unfold rawEdges at he
  unfold candidateTables
  rcases List.mem_append.1 he with h | h
  · unfold eqJoinEdges at h
    obtain ⟨q, hq, hmem⟩ := List.mem_flatMap.1 h
    dsimp only at hmem
    split at hmem
    case isTrue => cases hmem
    case isFalse hguard =>
      rcases List.mem_singleton.1 hmem with rfl
      have hmemt : ∀ x ∈ [aliasGet pr q.1, aliasGet pr q.2.2.1], x ∈ eqJoinTables pr := by
        intro x hx
        unfold eqJoinTables
        exact List.mem_flatMap.2 ⟨q, hq, by
          dsimp only
          rw [if_neg hguard]
          exact hx⟩
      constructor
      · simp only [List.mem_append, or_assoc]
        exact Or.inr (Or.inl (hmemt (aliasGet pr q.1) (by simp)))
      · simp only [List.mem_append, or_assoc]
        exact Or.inr (Or.inl (hmemt (aliasGet pr q.2.2.1) (by simp)))
  · unfold usingJoinEdges at h
    obtain ⟨u, hu, hmem⟩ := List.mem_flatMap.1 h
    dsimp only at hmem
    split at hmem
    case isTrue => cases hmem
    case isFalse hguard =>
      obtain ⟨c, _, rfl⟩ := List.mem_map.1 hmem
      have hmemt : ∀ x ∈ [u.1, u.2.1], x ∈ usingJoinTables pr := by
        intro x hx
        unfold usingJoinTables
        exact List.mem_flatMap.2 ⟨u, hu, by
          rw [if_neg hguard]
          exact hx⟩
      constructor
      · simp only [List.mem_append, or_assoc]
        exact Or.inr (Or.inr (Or.inl (hmemt u.1 (by simp))))
      · simp only [List.mem_append, or_assoc]
        exact Or.inr (Or.inr (Or.inl (hmemt u.2.1 (by simp))))

/-- Edges surviving deduplication come from the raw sequence. -/
theorem mem_raw_of_mem_buildEdges {enum : List String → List String}
    {ttc : List (String × List (String × String))}
    {fkm fkr : List (EdgeKey × String)} {pr : ParseResult} {e : Edge}
    (he : e ∈ buildEdges enum ttc fkm fkr pr) : e ∈ rawEdges enum ttc fkm fkr pr :=
  (dedupByGo_sublist edgeKey [] _).subset he

/-- A raw edge's 4-tuple survives deduplication with the description of
its own key lookup. -/
theorem edge_mem_buildEdges_of_mem_raw {enum : List String → List String}
    {ttc : List (String × List (String × String))}
    {fkm fkr : List (EdgeKey × String)} {pr : ParseResult} {e : Edge}
    (he : e ∈ rawEdges enum ttc fkm fkr pr) :
    (⟨e.child_table, e.child_column, e.parent_table, e.parent_column,
      descFor fkm fkr (edgeKey e)⟩ : Edge) ∈ buildEdges enum ttc fkm fkr pr := by
  rcases key_mem_dedupByGo edgeKey [] he with hs | hd
  · cases hs
  · obtain ⟨f, hf, hkf⟩ := List.mem_map.1 hd
    have hfraw : f ∈ rawEdges enum ttc fkm fkr pr := mem_raw_of_mem_buildEdges hf
    have hdesc : f.description = descFor fkm fkr (edgeKey f) := rawEdges_desc hfraw
    have : (⟨e.child_table, e.child_column, e.parent_table, e.parent_column,
        descFor fkm fkr (edgeKey e)⟩ : Edge) = f := by
      obtain ⟨a, b, c, d, ds⟩ := f
      obtain ⟨a2, b2, c2, d2, ds2⟩ := e
      simp only [edgeKey] at hkf hdesc ⊢
      obtain ⟨h1, h2, h3, h4⟩ := Prod.mk.injEq .. ▸ hkf
      simp_all [edgeKey]
    rw [this]
    exact hf

/-- Key membership in the deduplicated edges matches the raw edges. -/
theorem mem_keys_buildEdges {enum : List String → List String}
    {ttc : List (String × List (String × String))}
    {fkm fkr : List (EdgeKey × String)} {pr : ParseResult} {k : EdgeKey} :
    k ∈ (buildEdges enum ttc fkm fkr pr).map edgeKey ↔
      k ∈ (rawEdges enum ttc fkm fkr pr).map edgeKey :=
  mem_map_key_dedupBy edgeKey _ k

/-- Key membership in the USING/NATURAL edges, independent of the set
enumeration order (any permutation of the canonical shared-column listing). -/
theorem mem_keys_usingJoinEdges {en : List String → List String}
    {ttc : List (String × List (String × String))}
    {fkm fkr : List (EdgeKey × String)} {pr : ParseResult} {k : EdgeKey}
    (hh : ∀ l, (en l).Perm l) :
    k ∈ (usingJoinEdges en ttc fkm fkr pr).map edgeKey ↔
      ∃ u ∈ pr.using_edges, ¬(u.1 = "" ∨ u.2.1 = "") ∧
        ∃ c, c ∈ (if u.2.2.2.isEmpty then sharedCols ttc u.1 u.2.1 else u.2.2.2) ∧
          k = (u.1, c, u.2.1, c) := by
  unfold usingJoinEdges
  constructor
  · intro h
    obtain ⟨e, he, rfl⟩ := List.mem_map.1 h
    obtain ⟨u, hu, hmem⟩ := List.mem_flatMap.1 he
    dsimp only at hmem
    split at hmem
    case isTrue => cases hmem
    case isFalse hguard =>
      obtain ⟨c, hc, rfl⟩ := List.mem_map.1 hmem
      refine ⟨u, hu, hguard, c, ?_, rfl⟩
      by_cases hemp : u.2.2.2.isEmpty
      · rw [if_pos hemp] at hc ⊢
        exact (hh _).mem_iff.1 hc
      · rw [if_neg hemp] at hc ⊢
        exact hc
  · rintro ⟨u, hu, hguard, c, hc, rfl⟩
    refine List.mem_map.2 ⟨⟨u.1, c, u.2.1, c, descFor fkm fkr (u.1, c, u.2.1, c)⟩, ?_, rfl⟩
    refine List.mem_flatMap.2 ⟨u, hu, ?_⟩
    dsimp only
    rw [if_neg hguard]
    refine List.mem_map.2 ⟨c, ?_, rfl⟩
    by_cases hemp : u.2.2.2.isEmpty
    · rw [if_pos hemp] at hc ⊢
      exact (hh _).mem_iff.2 hc
    · rw [if_neg hemp] at hc ⊢
      exact hc

/-! ### Claim theorems -/

/-- C2: when the SQL fails to parse under every dialect (`parsed = none`),
`build_gold_for_record` still returns a result without raising; its edge
list is empty, its node set is exactly the sorted text-scan fallback
tables, and the rendered text is just those nodes' lines (possibly the
empty string). -/
theorem c2_parse_failure_degrades (enum : List String → List String)
    (rec : QuestionRecord) (schema : Schema) :
    (build_gold_for_record enum rec schema none).gold_graph.edges = [] ∧
    (build_gold_for_record enum rec schema none).gold_graph.nodes.map Node.table_name =
      sortDedup (fallbackTables (tableToCols schema) rec.SQL) ∧
    (build_gold_for_record enum rec schema none).context_text =
      String.intercalate "\n"
        ((build_gold_for_record enum rec schema none).gold_graph.nodes.map nodeLine) := by
  refine ⟨rfl, ?_, ?_⟩
  · have h := buildNodes_names (tableToCols schema) rec.SQL emptyParse
    exact h.trans (by rfl)
  · show contextText (buildNodes (tableToCols schema) rec.SQL emptyParse)
      (buildEdges enum (tableToCols schema) (fkDescMap schema) (fkDescMapRev schema)
        emptyParse) = _
    have hedges : buildEdges enum (tableToCols schema) (fkDescMap schema)
        (fkDescMapRev schema) emptyParse = [] := rfl
    rw [hedges]
    unfold contextText
    simp only [List.isEmpty_nil, if_true, List.map_nil, List.append_nil]
    rfl

/-- C5: the nodes of every returned graph are sorted lexicographically by
table name (code-point string order, as Python `sorted`), and each node
carries the schema's full `(name, description)` column list for its table,
never a subset restricted to referenced columns. -/
theorem c5_nodes_sorted_and_complete (enum : List String → List String)
    (rec : QuestionRecord) (schema : Schema) (parsed : Option ParseResult) (n : Node)
    (hn : n ∈ (build_gold_for_record enum rec schema parsed).gold_graph.nodes) :
    List.Sorted (fun a b => strLeB a b = true)
      ((build_gold_for_record enum rec schema parsed).gold_graph.nodes.map Node.table_name) ∧
    n.columns = (dictGet (tableToCols schema) n.table_name).getD [] := by
  constructor
  · show List.Sorted _ ((buildNodes (tableToCols schema) rec.SQL
      (parsed.getD emptyParse)).map Node.table_name)
    rw [buildNodes_names]
    exact sortDedup_sorted _
  · have hn2 : n ∈ buildNodes (tableToCols schema) rec.SQL (parsed.getD emptyParse) := hn
    unfold buildNodes at hn2
    obtain ⟨t, _, rfl⟩ := List.mem_map.1 hn2
    rfl

/-- C6: in every returned graph no two edges share the same
`(child_table, child_column, parent_table, parent_column)` 4-tuple; the
retained edges form a sublist of the raw pre-deduplication edge sequence
(so each survives at its first-seen position); each retained edge is the
first occurrence of its key in that sequence; and every raw edge's key is
represented among the retained edges. -/
theorem c6_edge_dedup (enum : List String → List String)
    (rec : QuestionRecord) (schema : Schema) (parsed : Option ParseResult) (e f : Edge)
    (he : e ∈ (build_gold_for_record enum rec schema parsed).gold_graph.edges)
    (hf : f ∈ rawEdges enum (tableToCols schema) (fkDescMap schema) (fkDescMapRev schema)
      (parsed.getD emptyParse)) :
    ((build_gold_for_record enum rec schema parsed).gold_graph.edges.map edgeKey).Nodup ∧
    ((build_gold_for_record enum rec schema parsed).gold_graph.edges).Sublist
      (rawEdges enum (tableToCols schema) (fkDescMap schema) (fkDescMapRev schema)
        (parsed.getD emptyParse)) ∧
    (rawEdges enum (tableToCols schema) (fkDescMap schema) (fkDescMapRev schema)
      (parsed.getD emptyParse)).find? (fun x => decide (edgeKey x = edgeKey e)) = some e ∧
    edgeKey f ∈
      ((build_gold_for_record enum rec schema parsed).gold_graph.edges.map edgeKey) := by
  refine ⟨nodup_keys_dedupByGo edgeKey [] _, dedupByGo_sublist edgeKey [] _,
    find?_of_mem_dedupByGo he, ?_⟩
  exact mem_keys_buildEdges.2 (List.mem_map.2 ⟨f, hf, rfl⟩)

/-- C10: each edge's child table and parent table always name a node of the
returned graph — every table named by an equality-join or USING/NATURAL
edge is unconditionally added to the node set — and a node whose table is
not a schema table carries an empty column list. -/
theorem c10_edge_endpoints_are_nodes (enum : List String → List String)
    (rec : QuestionRecord) (schema : Schema) (parsed : Option ParseResult)
    (e : Edge) (n : Node)
    (he : e ∈ (build_gold_for_record enum rec schema parsed).gold_graph.edges)
    (hn : n ∈ (build_gold_for_record enum rec schema parsed).gold_graph.nodes)
    (hns : isSchemaTable (tableToCols schema) n.table_name = false) :
    e.child_table ∈
      (build_gold_for_record enum rec schema parsed).gold_graph.nodes.map Node.table_name ∧
    e.parent_table ∈
      (build_gold_for_record enum rec schema parsed).gold_graph.nodes.map Node.table_name ∧
    n.columns = [] := by
  have heraw : e ∈ rawEdges enum (tableToCols schema) (fkDescMap schema)
      (fkDescMapRev schema) (parsed.getD emptyParse) := mem_raw_of_mem_buildEdges he
  obtain ⟨hc, hp⟩ := rawEdges_tables heraw
  refine ⟨mem_nodeNames_of_mem_candidates hc, mem_nodeNames_of_mem_candidates hp, ?_⟩
  have hn2 : n ∈ buildNodes (tableToCols schema) rec.SQL (parsed.getD emptyParse) := hn
  unfold buildNodes at hn2
  obtain ⟨t, _, rfl⟩ := List.mem_map.1 hn2
  show ((dictGet (tableToCols schema) t).getD []) = []
  have : dictGet (tableToCols schema) t = none := dictGet_eq_none_of_not_schema hns
  rw [this]
  rfl

/-- Witness for C5 at a concrete two-table schema and FROM list. -/
theorem c5_nodes_sorted_and_complete_witness :
    List.Sorted (fun a b => strLeB a b = true)
      ((build_gold_for_record id recEmpty schStudent
        (some prFromBoth)).gold_graph.nodes.map Node.table_name) ∧
    (⟨"Student", [("id", "primary key"), ("name", "")]⟩ : Node).columns =
      (dictGet (tableToCols schStudent)
        (⟨"Student", [("id", "primary key"), ("name", "")]⟩ : Node).table_name).getD [] :=
  c5_nodes_sorted_and_complete id recEmpty schStudent (some prFromBoth)
    ⟨"Student", [("id", "primary key"), ("name", "")]⟩ (by decide)

/-- Witness for C6 at a record with a duplicated join predicate. -/
theorem c6_edge_dedup_witness :
    ((build_gold_for_record id recEmpty schT
        (some prDup)).gold_graph.edges.map edgeKey).Nodup ∧
    ((build_gold_for_record id recEmpty schT (some prDup)).gold_graph.edges).Sublist
      (rawEdges id (tableToCols schT) (fkDescMap schT) (fkDescMapRev schT)
        ((some prDup).getD emptyParse)) ∧
    (rawEdges id (tableToCols schT) (fkDescMap schT) (fkDescMapRev schT)
      ((some prDup).getD emptyParse)).find?
        (fun x => decide (edgeKey x = edgeKey ⟨"X", "a", "Y", "b", ""⟩)) =
      some ⟨"X", "a", "Y", "b", ""⟩ ∧
    edgeKey (⟨"X", "a", "Y", "b", ""⟩ : Edge) ∈
      ((build_gold_for_record id recEmpty schT (some prDup)).gold_graph.edges.map edgeKey) :=
  c6_edge_dedup id recEmpty schT (some prDup) ⟨"X", "a", "Y", "b", ""⟩
    ⟨"X", "a", "Y", "b", ""⟩ (by decide) (by decide)

/-- Witness for C10 at a join naming two non-schema tables. -/
theorem c10_edge_endpoints_are_nodes_witness :
    (⟨"X", "a", "Y", "b", ""⟩ : Edge).child_table ∈
      (build_gold_for_record id recEmpty schT
        (some prXY)).gold_graph.nodes.map Node.table_name ∧
    (⟨"X", "a", "Y", "b", ""⟩ : Edge).parent_table ∈
      (build_gold_for_record id recEmpty schT
        (some prXY)).gold_graph.nodes.map Node.table_name ∧
    (⟨"X", []⟩ : Node).columns = [] :=
  c10_edge_endpoints_are_nodes id recEmpty schT (some prXY) ⟨"X", "a", "Y", "b", ""⟩
    ⟨"X", []⟩ (by decide) (by decide) (by decide)

/-- C7 counterexample: the relationship separator the code writes is the
literal three-character sequence U+00E2 U+2020 U+2019 (mojibake of an
arrow), not the ASCII `->` the claim states; the rendered text at a
concrete one-edge graph differs from the claimed form. -/
theorem c7_rendering_counterexample :
    (build_gold_for_record id recEmpty schT (some prXY)).context_text =
      "Table X: \nTable Y: \nRelationships:\nX.a \u00e2\u2020\u2019 Y.b" ∧
    (build_gold_for_record id recEmpty schT (some prXY)).context_text ≠
      "Table X: \nTable Y: \nRelationships:\nX.a -> Y.b" := by
  constructor
  · rfl
  · decide

/-- C7 amended: the rendered context text is one line per node
`Table <name>: <col>: <description>, <col>, ...` (a column with empty
description rendered bare), then — when at least one edge exists — the
header `Relationships:` and one line per edge
`<child>.<childcol> <U+00E2><U+2020><U+2019> <parent>.<parentcol> (<description>)`
with the parenthetical omitted for an empty description; line order is node
order then edge order.  Identical to the claim except that the separator is
the mojibake sequence, not `->`. -/
theorem c7_rendering_amended (enum : List String → List String)
    (rec : QuestionRecord) (schema : Schema) (parsed : Option ParseResult) :
    (build_gold_for_record enum rec schema parsed).context_text =
      String.intercalate "\n"
        ((build_gold_for_record enum rec schema parsed).gold_graph.nodes.map
            (fun n => "Table " ++ n.table_name ++ ": " ++
              String.intercalate ", "
                (n.columns.map (fun cd => if cd.2 = "" then cd.1 else cd.1 ++ ": " ++ cd.2))) ++
          (if (build_gold_for_record enum rec schema parsed).gold_graph.edges.isEmpty then []
           else "Relationships:" ::
             (build_gold_for_record enum rec schema parsed).gold_graph.edges.map
               (fun e => e.child_table ++ "." ++ e.child_column ++ " " ++
                 "\u00e2\u2020\u2019" ++ " " ++ e.parent_table ++ "." ++ e.parent_column ++
                 (if e.description = "" then "" else " (" ++ e.description ++ ")")))) := rfl

/-- C1 counterexample: the graph-building core compares names by exact
string equality, not by normalized form.  The FROM token `student_id` and
the schema table `StudentId` have equal normalized forms yet do not match:
the build yields no node at all (the whole-word fallback scan of the SQL
text also fails to find `studentid`). -/
theorem c1_normalization_counterexample :
    normName "student_id" = normName "StudentId" ∧
    ("student_id" : String) ≠ "StudentId" ∧
    (build_gold_for_record id recStudentId schStudentId
      (some prStudentId)).gold_graph.nodes = [] := by
  refine ⟨by decide, by decide, by decide⟩

/-- C1 amended: name matching in the graph-building core is exact string
equality.  A FROM/JOIN token (the only possible table source under the
stated hypotheses) yields a node exactly when it equals a schema table
name, and the NATURAL-join shared-column set is the intersection of the
two tables' exact column-name sets.  Normalization (strip, lowercase,
drop non-alphanumerics) is used only by the FK-description augmentation
step, not here. -/
theorem c1_exact_matching_amended (enum : List String → List String)
    (rec : QuestionRecord) (schema : Schema) (pr : ParseResult) (t l r c : String)
    (hS : fallbackTables (tableToCols schema) rec.SQL = [])
    (h1 : pr.tables_in_from = [t]) (h2 : pr.join_pairs = [])
    (h3 : pr.using_edges = []) (h4 : pr.columns = []) :
    ((t ∈ (build_gold_for_record enum rec schema
        (some pr)).gold_graph.nodes.map Node.table_name) ↔
      isSchemaTable (tableToCols schema) t = true) ∧
    (c ∈ sharedCols (tableToCols schema) l r ↔
      (c ∈ colNames (tableToCols schema) l ∧ c ∈ colNames (tableToCols schema) r)) := by
  constructor
  · show (t ∈ (buildNodes (tableToCols schema) rec.SQL
      ((some pr).getD emptyParse)).map Node.table_name ↔ _)
    rw [buildNodes_names]
    by_cases hp : isSchemaTable (tableToCols schema) t = true
    · simp [neededTables, candidateTables, fromTables, eqJoinTables, usingJoinTables,
        colTables, h1, h2, h3, h4, hp, mem_sortDedup]
    · simp [neededTables, candidateTables, fromTables, eqJoinTables, usingJoinTables,
        colTables, h1, h2, h3, h4, hp, hS, mem_sortDedup]
  · unfold sharedCols
    simp [List.mem_filter, mem_dedupBy_id]

/-- Witness for the amended C1 at a concrete schema. -/
theorem c1_exact_matching_amended_witness :
    (("Student" ∈ (build_gold_for_record id recEmpty schStudent
        (some prFromStudent)).gold_graph.nodes.map Node.table_name) ↔
      isSchemaTable (tableToCols schStudent) "Student" = true) ∧
    ("id" ∈ sharedCols (tableToCols schStudent) "Student" "Student" ↔
      ("id" ∈ colNames (tableToCols schStudent) "Student" ∧
       "id" ∈ colNames (tableToCols schStudent) "Student")) :=
  c1_exact_matching_amended id recEmpty schStudent prFromStudent "Student" "Student"
    "Student" "id" (by decide) (by decide) (by decide) (by decide) (by decide)

/-- C3 counterexample: two schema tables (`A` with `ID`, `B` with `id`)
own a column whose normalized name equals that of the unqualified
reference `id`, so under the claim the reference should contribute no
table; the code matches exactly, finds the single owner `B`, and adds it
as a node. -/
theorem c3_ambiguous_normalized_counterexample :
    normName "ID" = normName "id" ∧
    ((tableToCols schAmbig).filter
      (fun p => p.2.any (fun cd => decide (normName cd.1 = normName "id")))).length = 2 ∧
    (build_gold_for_record id recEmpty schAmbig
      (some prAmbig)).gold_graph.nodes.map Node.table_name = ["B"] := by
  refine ⟨by decide, by decide, by decide⟩

set_option maxRecDepth 4000 in
/-- C3 amended: an unqualified column reference (the only possible table
source under the stated hypotheses) contributes a node exactly when
exactly one schema table owns a column with that **exact** name (the
unique owner); with zero or several exact owners it contributes nothing,
and no edge is ever produced by column references. -/
theorem c3_unqualified_exact_owner_amended (enum : List String → List String)
    (rec : QuestionRecord) (schema : Schema) (pr : ParseResult) (t col : String)
    (hS : fallbackTables (tableToCols schema) rec.SQL = [])
    (h1 : pr.tables_in_from = []) (h2 : pr.join_pairs = [])
    (h3 : pr.using_edges = []) (h4 : pr.columns = [("", col)]) :
    (build_gold_for_record enum rec schema (some pr)).gold_graph.edges = [] ∧
    (t ∈ (build_gold_for_record enum rec schema
        (some pr)).gold_graph.nodes.map Node.table_name ↔
      ownersOf (tableToCols schema) col = [t]) := by
  constructor
  · show buildEdges enum (tableToCols schema) (fkDescMap schema) (fkDescMapRev schema)
      ((some pr).getD emptyParse) = []
    unfold buildEdges rawEdges eqJoinEdges usingJoinEdges
    rw [Option.getD_some, h2, h3]
    rfl
  · show (t ∈ (buildNodes (tableToCols schema) rec.SQL
      ((some pr).getD emptyParse)).map Node.table_name ↔ _)
    rw [buildNodes_names]
    cases how : ownersOf (tableToCols schema) col with
    | nil =>
      simp [neededTables, candidateTables, fromTables, eqJoinTables, usingJoinTables,
        colTables, h1, h2, h3, h4, how, hS, mem_sortDedup]
    | cons a tail =>
      cases tail with
      | nil =>
        have hcand : candidateTables (tableToCols schema) pr = [a] := by
          simp [candidateTables, fromTables, eqJoinTables, usingJoinTables, colTables,
            h1, h2, h3, h4, how]
        have hneed : neededTables (tableToCols schema) rec.SQL pr = [a] := by
          unfold neededTables
          rw [hcand]
          rfl
        rw [Option.getD_some, hneed, mem_sortDedup]
        constructor
        · intro h
          rw [List.mem_singleton] at h
          rw [h]
        · intro h
          injection h with h1 _
          rw [← h1]
          exact List.mem_singleton.2 rfl
      | cons b rest =>
        simp [neededTables, candidateTables, fromTables, eqJoinTables, usingJoinTables,
          colTables, h1, h2, h3, h4, how, hS, mem_sortDedup]

/-- Witness for the amended C3: `name` is owned solely by `Student`. -/
theorem c3_unqualified_exact_owner_amended_witness :
    (build_gold_for_record id recEmpty schStudent (some prNameCol)).gold_graph.edges = [] ∧
    ("Student" ∈ (build_gold_for_record id recEmpty schStudent
        (some prNameCol)).gold_graph.nodes.map Node.table_name ↔
      ownersOf (tableToCols schStudent) "name" = ["Student"]) :=
  c3_unqualified_exact_owner_amended id recEmpty schStudent prNameCol "Student" "name"
    (by decide) (by decide) (by decide) (by decide) (by decide)

/-- C4 counterexample: the FK index of `schFkBoth` records description
`d1` for the pair `(A.x, B.y)`, and the join predicate is written in the
reverse direction `B.y = A.x`; yet the emitted edge's description is `d2`
(the forward entry recorded for `(B.y, A.x)` shadows the reverse lookup),
not `d1`. -/
theorem c4_fk_reverse_shadowed_counterexample :
    dictGet (fkDescMap schFkBoth) ("A", "x", "B", "y") = some "d1" ∧
    (build_gold_for_record id recEmpty schFkBoth (some prRevJoin)).gold_graph.edges =
      [⟨"B", "y", "A", "x", "d2"⟩] ∧
    ("d2" : String) ≠ "d1" := by
  refine ⟨by decide, by decide, by decide⟩

/-- C4 amended: direction-agnostic FK description lookup holds provided
the forward index has no non-empty entry for the reversed pair: if the FK
index records `d` for `(A.x, B.y)` and the forward lookup of
`(B.y, A.x)` is empty or missing, a join predicate written as
`B.y = A.x` (after alias resolution) yields an edge in the output graph
carrying exactly description `d`. -/
theorem c4_fk_reverse_lookup_amended (enum : List String → List String)
    (rec : QuestionRecord) (schema : Schema) (pr : ParseResult)
    (a x b y ltab rtab d : String)
    (hfk : dictGet (fkDescMap schema) (a, x, b, y) = some d)
    (hno : (dictGet (fkDescMap schema) (b, y, a, x)).getD "" = "")
    (hmem : (ltab, y, rtab, x) ∈ pr.join_pairs)
    (hlres : aliasGet pr ltab = b) (hrres : aliasGet pr rtab = a)
    (hb : b ≠ "") (ha : a ≠ "") :
    (⟨b, y, a, x, d⟩ : Edge) ∈
      (build_gold_for_record enum rec schema (some pr)).gold_graph.edges := by
  have hdesc : descFor (fkDescMap schema) (fkDescMapRev schema) (b, y, a, x) = d := by
    unfold descFor
    rw [hno]
    rw [if_pos rfl]
    rw [dictGet_fkDescMapRev]
    show (dictGet (fkDescMap schema) (a, x, b, y)).getD "" = d
    rw [hfk]
    rfl
  have hraw : (⟨b, y, a, x,
      descFor (fkDescMap schema) (fkDescMapRev schema) (b, y, a, x)⟩ : Edge) ∈
      rawEdges enum (tableToCols schema) (fkDescMap schema) (fkDescMapRev schema) pr := by
    unfold rawEdges
    apply List.mem_append.2
    left
    unfold eqJoinEdges
    refine List.mem_flatMap.2 ⟨(ltab, y, rtab, x), hmem, ?_⟩
    dsimp only
    rw [hlres, hrres]
    rw [if_neg (by simp [hb, ha])]
    exact List.mem_singleton.2 rfl
  have hmem2 := edge_mem_buildEdges_of_mem_raw hraw
  rw [← hdesc]
  exact hmem2

/-- Witness for the amended C4: the single recorded FK `(A.x, B.y) : d1`
is found by the reverse-direction predicate `B.y = A.x`. -/
theorem c4_fk_reverse_lookup_amended_witness :
    (⟨"B", "y", "A", "x", "d1"⟩ : Edge) ∈
      (build_gold_for_record id recEmpty schFkOne (some prRevJoin)).gold_graph.edges :=
  c4_fk_reverse_lookup_amended id recEmpty schFkOne prRevJoin "A" "x" "B" "y" "B" "A" "d1"
    (by decide) (by decide) (by decide) (by decide) (by decide) (by decide) (by decide)

/-- C8 counterexample: the qualifiers `X` and `Y` of the join predicate
are absent from the alias table and name no schema table, yet the
reference is *not* excluded: both become nodes (with empty column lists)
and the edge is emitted. -/
theorem c8_unresolvable_alias_counterexample :
    dictGet prXY.alias_to_table "X" = none ∧
    isSchemaTable (tableToCols schT) "X" = false ∧
    (build_gold_for_record id recEmpty schT
      (some prXY)).gold_graph.nodes.map Node.table_name = ["X", "Y"] ∧
    (build_gold_for_record id recEmpty schT (some prXY)).gold_graph.edges =
      [⟨"X", "a", "Y", "b", ""⟩] := by
  refine ⟨by decide, by decide, by decide, by decide⟩

/-- C8 amended: for an equality join predicate whose table qualifiers are
not in the alias table, the raw tokens are used as the table names and no
error is raised; but the reference is not excluded — both (possibly
non-schema) tables become nodes and the predicate's edge key appears in
the output edges. -/
theorem c8_unresolved_alias_contributes_amended (enum : List String → List String)
    (rec : QuestionRecord) (schema : Schema) (pr : ParseResult)
    (ltab ln rtab rn : String)
    (hmem : (ltab, ln, rtab, rn) ∈ pr.join_pairs)
    (hl : dictGet pr.alias_to_table ltab = none)
    (hr : dictGet pr.alias_to_table rtab = none)
    (hlne : ltab ≠ "") (hrne : rtab ≠ "") :
    aliasGet pr ltab = ltab ∧
    ltab ∈ (build_gold_for_record enum rec schema
      (some pr)).gold_graph.nodes.map Node.table_name ∧
    rtab ∈ (build_gold_for_record enum rec schema
      (some pr)).gold_graph.nodes.map Node.table_name ∧
    (ltab, ln, rtab, rn) ∈
      (build_gold_for_record enum rec schema (some pr)).gold_graph.edges.map edgeKey := by
  have hl2 : aliasGet pr ltab = ltab := by
    unfold aliasGet
    rw [hl]
    rfl
  have hr2 : aliasGet pr rtab = rtab := by
    unfold aliasGet
    rw [hr]
    rfl
  have hraw : (⟨ltab, ln, rtab, rn,
      descFor (fkDescMap schema) (fkDescMapRev schema) (ltab, ln, rtab, rn)⟩ : Edge) ∈
      rawEdges enum (tableToCols schema) (fkDescMap schema) (fkDescMapRev schema) pr := by
    unfold rawEdges
    apply List.mem_append.2
    left
    unfold eqJoinEdges
    refine List.mem_flatMap.2 ⟨(ltab, ln, rtab, rn), hmem, ?_⟩
    dsimp only
    rw [hl2, hr2]
    rw [if_neg (by simp [hlne, hrne])]
    exact List.mem_singleton.2 rfl
  obtain ⟨hc, hp⟩ := rawEdges_tables hraw
  refine ⟨hl2, mem_nodeNames_of_mem_candidates hc, mem_nodeNames_of_mem_candidates hp, ?_⟩
  exact mem_keys_buildEdges.2 (List.mem_map.2 ⟨_, hraw, rfl⟩)

/-- Witness for the amended C8 at the concrete `X.a = Y.b` predicate. -/
theorem c8_unresolved_alias_contributes_amended_witness :
    aliasGet prXY "X" = "X" ∧
    "X" ∈ (build_gold_for_record id recEmpty schT
      (some prXY)).gold_graph.nodes.map Node.table_name ∧
    "Y" ∈ (build_gold_for_record id recEmpty schT
      (some prXY)).gold_graph.nodes.map Node.table_name ∧
    ("X", "a", "Y", "b") ∈
      (build_gold_for_record id recEmpty schT (some prXY)).gold_graph.edges.map edgeKey :=
  c8_unresolved_alias_contributes_amended id recEmpty schT prXY "X" "a" "Y" "b"
    (by decide) (by decide) (by decide) (by decide) (by decide)

/-- C9 counterexample: with the NATURAL join of `A` and `B` (shared
columns `id` and `code`), two set-enumeration orders that are both
permutations of the shared-column set — as Python's hash-randomized set
iteration yields across processes — produce the same nodes but different
edge order and different rendered text, refuting byte-identical output
across invocations. -/
theorem c9_natural_order_counterexample :
    ((fun l : List String => l.reverse) (sharedCols (tableToCols schNat) "A" "B")).Perm
      (sharedCols (tableToCols schNat) "A" "B") ∧
    (build_gold_for_record id recEmpty schNat (some prNat)).gold_graph.nodes =
      (build_gold_for_record (fun l => l.reverse) recEmpty schNat
        (some prNat)).gold_graph.nodes ∧
    (build_gold_for_record id recEmpty schNat (some prNat)).gold_graph.edges ≠
      (build_gold_for_record (fun l => l.reverse) recEmpty schNat
        (some prNat)).gold_graph.edges ∧
    (build_gold_for_record id recEmpty schNat (some prNat)).context_text ≠
      (build_gold_for_record (fun l => l.reverse) recEmpty schNat
        (some prNat)).context_text :=
  ⟨List.reverse_perm _, by decide, by decide, by decide⟩

/-- C9 amended: for a fixed schema, record and parse result the build is a
pure function of the set-enumeration order; the node list (including its
order) and the set of edge 4-tuples are identical for any two enumeration
orders that enumerate each set (i.e. are permutations); only the relative
order of the edges expanded from a NATURAL join's shared-column set — and
hence the rendered text — can differ across processes. -/
theorem c9_determinism_amended (enum1 enum2 : List String → List String)
    (rec : QuestionRecord) (schema : Schema) (parsed : Option ParseResult) (k : EdgeKey)
    (h1 : ∀ l, (enum1 l).Perm l) (h2 : ∀ l, (enum2 l).Perm l) :
    (build_gold_for_record enum1 rec schema parsed).gold_graph.nodes =
      (build_gold_for_record enum2 rec schema parsed).gold_graph.nodes ∧
    (k ∈ (build_gold_for_record enum1 rec schema parsed).gold_graph.edges.map edgeKey ↔
     k ∈ (build_gold_for_record enum2 rec schema parsed).gold_graph.edges.map edgeKey) := by
  refine ⟨rfl, ?_⟩
  show k ∈ (buildEdges enum1 (tableToCols schema) (fkDescMap schema) (fkDescMapRev schema)
      (parsed.getD emptyParse)).map edgeKey ↔
    k ∈ (buildEdges enum2 (tableToCols schema) (fkDescMap schema) (fkDescMapRev schema)
      (parsed.getD emptyParse)).map edgeKey
  rw [mem_keys_buildEdges, mem_keys_buildEdges]
  unfold rawEdges
  rw [List.map_append, List.map_append, List.mem_append, List.mem_append]
  exact or_congr Iff.rfl
    ((mem_keys_usingJoinEdges h1).trans (mem_keys_usingJoinEdges h2).symm)

/-- Witness for the amended C9: identity and reversal both enumerate the
shared-column set; nodes agree and the key `(A, id, B, id)` is present
either way. -/
theorem c9_determinism_amended_witness :
    (build_gold_for_record id recEmpty schNat (some prNat)).gold_graph.nodes =
      (build_gold_for_record (fun l => l.reverse) recEmpty schNat
        (some prNat)).gold_graph.nodes ∧
    (("A", "id", "B", "id") ∈
        (build_gold_for_record id recEmpty schNat
          (some prNat)).gold_graph.edges.map edgeKey ↔
     ("A", "id", "B", "id") ∈
        (build_gold_for_record (fun l => l.reverse) recEmpty schNat
          (some prNat)).gold_graph.edges.map edgeKey) :=
  c9_determinism_amended id (fun l => l.reverse) recEmpty schNat (some prNat)
    ("A", "id", "B", "id") (fun l => List.Perm.refl l) (fun l => List.reverse_perm l)
